import Mathlib

/-!
Verification development for the tlspuffin core: the typed term algebra,
the trace model, the mutator suite (src/fuzzer/mutations.rs), the fixed
"random" function symbols (src/term/op_impl.rs, src/tls/fn_fields.rs) and
agent names (src/agent.rs), shallowly embedded in Lean.
-/

namespace Tlspuffin

/-- The stable identity of a concrete value type (`TypeShape` in the source).
Two TypeShapes are equal iff their runtime identifiers match. -/
structure TypeShape where
  id : Nat
deriving DecidableEq, Repr

/-- `DynamicFunctionShape`: name, ordered argument types and return type of a
function symbol. -/
structure DynamicFunctionShape where
  name : String
  argumentTypes : List TypeShape
  returnType : TypeShape
deriving DecidableEq, Repr

/-- `DynamicFunction`: the erased callable.  The mutators never invoke it, so
it is embedded as an opaque identity. -/
structure DynamicFunction where
  fnId : Nat
deriving DecidableEq, Repr

/-- `FunctionDefinition = (DynamicFunctionShape, Box<dyn DynamicFunction>)`
(src/term/signature.rs). -/
abbrev FunctionDefinition := DynamicFunctionShape × DynamicFunction

/-- `term::atoms::Function`: a function symbol occurrence, carrying its shape
and erased callable.  `change_function` of the source swaps both fields. -/
structure Fn where
  shape : DynamicFunctionShape
  dynamicFn : DynamicFunction
deriving DecidableEq, Repr

/-- A `Variable` of the term algebra: a type shape plus an (opaque) query id. -/
structure Variable where
  typeShape : TypeShape
  query : Nat
deriving DecidableEq, Repr

/-- `Term` — a tagged variant: `Variable(Variable)` or
`Application(Function, Vec<Term>)`. -/
inductive Term where
  | Variable (v : Variable)
  | Application (func : Fn) (args : List Term)

/-- `Term::get_type_shape`: a Variable's `type_shape`, or an Application's
`shape.return_type`. -/
def Term.getTypeShape : Term → TypeShape
  | .Variable v => v.typeShape
  | .Application func _ => func.shape.returnType

mutual
/-- The structural typing invariant of §3, checked recursively: at every
Application the children count equals the argument-type count and each
child's output type equals the corresponding argument type. -/
def Term.wellTypedB : Term → Bool
  | .Variable _ => true
  | .Application func args =>
      typesMatch args func.shape.argumentTypes && allWellTyped args

/-- Children against the argument-type list: equal length and pointwise
output-type agreement. -/
def typesMatch : List Term → List TypeShape → Bool
  | [], [] => true
  | t :: ts, ty :: tys => (t.getTypeShape == ty) && typesMatch ts tys
  | _, _ => false

/-- All members of a list are well-typed. -/
def allWellTyped : List Term → Bool
  | [] => true
  | t :: ts => t.wellTypedB && allWellTyped ts
end

mutual
/-- Number of subterms (the term itself included) satisfying a predicate;
this is the candidate count of the spec's filter-and-choose operation. -/
def Term.countFiltered : Term → (Term → Bool) → Nat
  | .Variable v, pred => if pred (.Variable v) then 1 else 0
  | .Application func args, pred =>
      (if pred (.Application func args) then 1 else 0) + countFilteredList args pred

/-- Candidate count over a list of terms. -/
def countFilteredList : List Term → (Term → Bool) → Nat
  | [], _ => 0
  | t :: ts, pred => t.countFiltered pred + countFilteredList ts pred
end

mutual
/-- Modelled from the spec: `choose_term_filtered` (§4.2, the body of the
missing `fuzzer/mutations_util.rs`) selects a uniformly-sampled subterm
satisfying `pred`; here, the `n`-th such subterm in pre-order. -/
def Term.findNth : Term → (Term → Bool) → Nat → Option Term
  | .Variable v, pred, n =>
      if pred (.Variable v) && n == 0 then some (.Variable v) else none
  | .Application func args, pred, n =>
      if pred (.Application func args) then
        if n = 0 then some (.Application func args)
        else findNthList args pred (n - 1)
      else findNthList args pred n

/-- `Term.findNth` over a list of terms, skipping whole subtrees by their
candidate counts. -/
def findNthList : List Term → (Term → Bool) → Nat → Option Term
  | [], _, _ => none
  | t :: ts, pred, n =>
      let c := t.countFiltered pred
      if n < c then t.findNth pred n else findNthList ts pred (n - c)
end

mutual
/-- Modelled from the spec: the mutate-in-place phase of the two-phase
mutation (§4.2, missing `fuzzer/mutations_util.rs` / `Term::mutate`):
replace the `n`-th `pred`-satisfying subterm (pre-order) by `r`.  If `n` is
out of range the term is returned unchanged. -/
def Term.replaceNth : Term → (Term → Bool) → Nat → Term → Term
  | .Variable v, pred, n, r =>
      if pred (.Variable v) && n == 0 then r else .Variable v
  | .Application func args, pred, n, r =>
      if pred (.Application func args) then
        if n = 0 then r
        else .Application func (replaceNthList args pred (n - 1) r)
      else .Application func (replaceNthList args pred n r)

/-- `Term.replaceNth` over a list of terms. -/
def replaceNthList : List Term → (Term → Bool) → Nat → Term → List Term
  | [], _, _, _ => []
  | t :: ts, pred, n, r =>
      let c := t.countFiltered pred
      if n < c then t.replaceNth pred n r :: ts
      else t :: replaceNthList ts pred (n - c) r
end

/-- `AgentName` (src/agent.rs): a one-byte opaque identifier; arithmetic is
modulo `2^8`. -/
structure AgentName where
  val : Nat
deriving DecidableEq, Repr

/-- `AgentName::new`: the successor of the last name, on one byte. -/
def AgentName.new (lastName : AgentName) : AgentName :=
  ⟨(lastName.val + 1) % 256⟩

/-- `NONE_AGENT` / `AgentName::none()`: the sentinel name `AgentName(0)`. -/
def AgentName.noneAgent : AgentName := ⟨0⟩

/-- The `n`-th name generated by starting from the sentinel and applying
`AgentName::new` `n` times. -/
def agentNameAt : Nat → AgentName
  | 0 => AgentName.noneAgent
  | n + 1 => AgentName.new (agentNameAt n)

/-- `InputAction { recipe }` (crate::trace, as used in src/fuzzer/seeds.rs). -/
structure InputAction where
  recipe : Term

/-- `OutputAction { id }` (crate::trace, as used in src/fuzzer/seeds.rs). -/
structure OutputAction where
  id : Nat
deriving DecidableEq, Repr

/-- `Action ::= Input(InputAction) | Output(OutputAction)`. -/
inductive Action where
  | Input (a : InputAction)
  | Output (a : OutputAction)

/-- `Step { agent, action }`. -/
structure Step where
  agent : AgentName
  action : Action

/-- `Trace { steps }`. -/
structure Trace where
  steps : List Step

/-- The recipe terms of a step: an Input step holds one, an Output step none. -/
def Step.terms (s : Step) : List Term :=
  match s.action with
  | .Input a => [a.recipe]
  | .Output _ => []

/-- Candidate count of a trace: subterms satisfying `pred` over all steps. -/
def Trace.termCount (tr : Trace) (pred : Term → Bool) : Nat :=
  (tr.steps.map fun s => countFilteredList s.terms pred).sum

/-- Modelled from the spec: trace-level filter-and-choose (§4.2 via the
missing `fuzzer/mutations_util.rs` `choose_term`): the `n`-th
`pred`-satisfying subterm across all steps, in step order. -/
def traceFindNth : List Step → (Term → Bool) → Nat → Option Term
  | [], _, _ => none
  | s :: ss, pred, n =>
      let c := countFilteredList s.terms pred
      if n < c then findNthList s.terms pred n else traceFindNth ss pred (n - c)

/-- Modelled from the spec: trace-level in-place replacement of the `n`-th
`pred`-satisfying subterm (§4.2, two-phase mutation of the missing
`fuzzer/mutations_util.rs` `choose_term_mut`). -/
def traceReplaceNth : List Step → (Term → Bool) → Nat → Term → List Step
  | [], _, _, _ => []
  | s :: ss, pred, n, r =>
      let c := countFilteredList s.terms pred
      if n < c then
        { s with action := match s.action with
            | .Input a => .Input ⟨a.recipe.replaceNth pred n r⟩
            | .Output o => .Output o } :: ss
      else s :: traceReplaceNth ss pred (n - c) r

/-- `choose_term(trace, rand)` with a filter: `none` when no subterm
satisfies `pred`, otherwise uniform over the candidates via `rand % count`. -/
def Trace.chooseTerm (tr : Trace) (pred : Term → Bool) (rand : Nat) : Option Term :=
  let c := tr.termCount pred
  if c = 0 then none else traceFindNth tr.steps pred (rand % c)

/-- All step recipes satisfy the structural typing invariant. -/
def Trace.wellTypedB (tr : Trace) : Bool :=
  tr.steps.all fun s => allWellTyped s.terms

/-- `libafl::bolts::rands::Rand::between(lower, upper)`: a value in the
inclusive range `[lower, upper]`, modelled as `lower + rand % size`. -/
def randBetween (lower upper rand : Nat) : Nat :=
  lower + rand % (upper - lower + 1)

/-- `MutationResult` of libafl: `Mutated` or `Skipped`. -/
inductive MutationResult where
  | Mutated
  | Skipped
deriving DecidableEq, Repr

/-- `Vec::insert(index, element)` of the steps vector. -/
def insertAt : List Step → Nat → Step → List Step
  | l, 0, a => a :: l
  | [], _ + 1, a => [a]
  | x :: xs, n + 1, a => x :: insertAt xs n a

/-- `RepeatMutator::mutate` (src/fuzzer/mutations.rs:55-70): on a non-empty
trace, choose a step uniformly (`rand.choose`), choose
`insert_index = rand.between(0, length - 1)` and insert a clone of the
chosen step there. -/
def RepeatMutator.mutate (trace : Trace) (r1 r2 : Nat) : MutationResult × Trace :=
  let steps := trace.steps
  let length := steps.length
  if h : length = 0 then (.Skipped, trace)
  else
    let step := steps.get ⟨r1 % length, Nat.mod_lt _ (Nat.pos_of_ne_zero h)⟩
    let insertIndex := randBetween 0 (length - 1) r2
    (.Mutated, ⟨insertAt steps insertIndex step⟩)

/-- `SkipMutator::mutate` (src/fuzzer/mutations.rs:111-125): on a non-empty
trace, remove the step at `rand.between(0, length - 1)`. -/
def SkipMutator.mutate (trace : Trace) (r : Nat) : MutationResult × Trace :=
  let length := trace.steps.length
  if length = 0 then (.Skipped, trace)
  else
    let removeIndex := randBetween 0 (length - 1) r
    (.Mutated, ⟨trace.steps.eraseIdx removeIndex⟩)

/-- `ReplaceReuseMutator::mutate` (src/fuzzer/mutations.rs:180-198): clone a
random subterm as `replacement`, then overwrite a random subterm of equal
type shape with it, in place in the trace. -/
def ReplaceReuseMutator.mutate (trace : Trace) (r1 r2 : Nat) : MutationResult × Trace :=
  match trace.chooseTerm (fun _ => true) r1 with
  | none => (.Skipped, trace)
  | some replacement =>
      let filter := fun (term : Term) => term.getTypeShape == replacement.getTypeShape
      let c := trace.termCount filter
      if c = 0 then (.Skipped, trace)
      else (.Mutated, ⟨traceReplaceNth trace.steps filter (r2 % c) replacement⟩)

/-- The filter of `ReplaceMatchMutator::mutate`: Applications whose shape has
the requested return type and argument types; Variables are rejected. -/
def replaceMatchFilter (requestedShape : DynamicFunctionShape) : Term → Bool :=
  fun term => match term with
  | .Variable _ => false
  | .Application func _ =>
      func.shape.returnType == requestedShape.returnType
        && func.shape.argumentTypes == requestedShape.argumentTypes

/-- `ReplaceMatchMutator::mutate` (src/fuzzer/mutations.rs:240-270): sample a
function definition from the signature (`none` models the panic of
`rand.choose` on an empty signature), clone (`.cloned()`) a random subterm
matching `replaceMatchFilter`, apply `change_function` to the clone and drop
it: the trace itself is returned unchanged. -/
def ReplaceMatchMutator.mutate (sig : List FunctionDefinition) (trace : Trace)
    (r1 r2 : Nat) : Option (MutationResult × Trace) :=
  match sig.get? (r1 % sig.length) with
  | none => none
  | some (requestedShape, requestedDynamicFn) =>
      match trace.chooseTerm (replaceMatchFilter requestedShape) r2 with
      | none => some (.Skipped, trace)
      | some toMutate =>
          match toMutate with
          | .Variable _ => some (.Skipped, trace)
          | .Application _ args =>
              let _mutatedClone : Term :=
                .Application ⟨requestedShape, requestedDynamicFn⟩ args
              some (.Mutated, trace)

/-- The filter of `RemoveAndLiftMutator::mutate`: Applications with exactly
one argument type, equal to the return type. -/
def removeAndLiftFilter : Term → Bool :=
  fun term => match term with
  | .Variable _ => false
  | .Application func _ =>
      func.shape.argumentTypes.length == 1
        && func.shape.argumentTypes.head? == some func.shape.returnType

/-- `RemoveAndLiftMutator::mutate` (src/fuzzer/mutations.rs:312-346): clone
(`.cloned()`) a random subterm matching `removeAndLiftFilter`, replace the
clone's content by its first child (`subterm.first().unwrap()`, whose panic
on a childless Application is modelled by `none`) and drop the clone: the
trace itself is returned unchanged. -/
def RemoveAndLiftMutator.mutate (trace : Trace) (r : Nat) :
    Option (MutationResult × Trace) :=
  match trace.chooseTerm removeAndLiftFilter r with
  | none => some (.Skipped, trace)
  | some toMutate =>
      match toMutate with
      | .Variable _ => some (.Skipped, trace)
      | .Application _ subterms =>
          match subterms.head? with
          | none => none
          | some firstSub =>
              let _mutatedClone : Term := firstSub
              some (.Mutated, trace)

/-- The kinds of trace mutators the spec names. -/
inductive MutatorKind where
  | RepeatM
  | SkipM
  | ReplaceReuse
  | ReplaceMatch
  | RemoveAndLift
  | Swap
deriving DecidableEq, Repr

/-- `trace_mutations` (src/fuzzer/mutations.rs:19-38): the tuple list of
mutators the fuzzer is given.  `SWAP` is only a todo comment
(src/fuzzer/mutations.rs:359) and is not part of the suite. -/
def trace_mutations : List MutatorKind :=
  [.RepeatM, .SkipM, .ReplaceReuse, .ReplaceMatch, .RemoveAndLift]

/-- Dispatch a mutator kind on a trace; `none` models a panic, and `Swap` has
no implementation in the source. -/
def applyMutator : MutatorKind → List FunctionDefinition → Trace → Nat → Nat →
    Option (MutationResult × Trace)
  | .RepeatM, _, tr, r1, r2 => some (RepeatMutator.mutate tr r1 r2)
  | .SkipM, _, tr, r1, _ => some (SkipMutator.mutate tr r1)
  | .ReplaceReuse, _, tr, r1, r2 => some (ReplaceReuseMutator.mutate tr r1 r2)
  | .ReplaceMatch, sig, tr, r1, r2 => ReplaceMatchMutator.mutate sig tr r1 r2
  | .RemoveAndLift, _, tr, r1, _ => RemoveAndLiftMutator.mutate tr r1
  | .Swap, _, _, _, _ => none

/-- The `Random` value of rustls as used by the source: 32 opaque bytes. -/
structure Random where
  bytes : List Nat
deriving DecidableEq, Repr

/-- `op_random` (src/term/op_impl.rs:178-181): builds a `Random` from the
fixed array `[1; 32]`. -/
def op_random : Random := ⟨List.replicate 32 1⟩

/-- `NoneError` of the `fn_`-style fallible symbols. -/
inductive NoneError where
  | noneError
deriving DecidableEq, Repr

/-- `fn_random` (src/tls/fn_fields.rs:16-19): `Ok` of a `Random` built from
the fixed array `[1; 32]`. -/
def fn_random : Except NoneError Random := .ok ⟨List.replicate 32 1⟩

/-! ### Concrete specimens

Small concrete signatures and traces used to evaluate the embedded
operations on explicit inputs. -/

/-- A sample type shape. -/
def ty0 : TypeShape := ⟨0⟩

/-- A nullary function shape returning `ty0`. -/
def shapeF : DynamicFunctionShape := ⟨"fn_f", [], ty0⟩

/-- A second nullary function shape returning `ty0`, distinct from `shapeF`. -/
def shapeG : DynamicFunctionShape := ⟨"fn_g", [], ty0⟩

/-- A unary function shape `ty0 → ty0` (argument type equals return type). -/
def shapeU : DynamicFunctionShape := ⟨"fn_u", [ty0], ty0⟩

/-- Erased callables for the sample shapes. -/
def dynF : DynamicFunction := ⟨0⟩

/-- See `dynF`. -/
def dynG : DynamicFunction := ⟨1⟩

/-- See `dynF`. -/
def dynU : DynamicFunction := ⟨2⟩

/-- Function-symbol occurrences built from the sample shapes. -/
def fnF : Fn := ⟨shapeF, dynF⟩

/-- See `fnF`. -/
def fnG : Fn := ⟨shapeG, dynG⟩

/-- See `fnF`. -/
def fnU : Fn := ⟨shapeU, dynU⟩

/-- An input step whose recipe is the application `fn_f()`. -/
def stepAppF : Step := ⟨⟨1⟩, .Input ⟨.Application fnF []⟩⟩

/-- An output step, distinct from `stepAppF`. -/
def stepOut : Step := ⟨⟨2⟩, .Output ⟨0⟩⟩

/-- A one-step trace holding `fn_f()`. -/
def traceF : Trace := ⟨[stepAppF]⟩

/-- A two-step trace with two distinct steps. -/
def traceTwo : Trace := ⟨[stepAppF, stepOut]⟩

/-- A one-step trace holding `fn_u(fn_f())`, whose root matches the
Remove-and-Lift filter. -/
def traceLift : Trace := ⟨[⟨⟨1⟩, .Input ⟨.Application fnU [.Application fnF []]⟩⟩]⟩

/-- A five-step trace. -/
def traceFive : Trace :=
  ⟨[⟨⟨1⟩, .Output ⟨0⟩⟩, ⟨⟨1⟩, .Output ⟨1⟩⟩, ⟨⟨1⟩, .Output ⟨2⟩⟩,
    ⟨⟨1⟩, .Output ⟨3⟩⟩, ⟨⟨1⟩, .Output ⟨4⟩⟩]⟩

/-- A two-symbol signature whose members share argument and return types. -/
def exampleSignature : List FunctionDefinition := [(shapeF, dynF), (shapeG, dynG)]

/-! ### Helper lemmas -/

theorem agentNameAt_eq (n : Nat) : agentNameAt n = ⟨n % 256⟩ := by
  induction n with
  | zero => rfl
  | succ k ih =>
      simp only [agentNameAt, ih, AgentName.new, AgentName.mk.injEq]
      omega

theorem mem_insertAt {l : List Step} {n : Nat} {a b : Step}
    (h : b ∈ insertAt l n a) : b = a ∨ b ∈ l := by
  induction l generalizing n with
  | nil =>
      cases n with
      | zero => simp [insertAt] at h; simp [h]
      | succ k => simp [insertAt] at h; simp [h]
  | cons x xs ih =>
      cases n with
      | zero =>
          simp only [insertAt, List.mem_cons] at h
          rcases h with h | h | h
          · exact Or.inl h
          · exact Or.inr (by simp [h])
          · exact Or.inr (by simp [h])
      | succ k =>
          simp only [insertAt, List.mem_cons] at h
          rcases h with h | h
          · simp [h]
          · rcases ih h with h' | h' <;> simp [h']

theorem length_insertAt (l : List Step) (n : Nat) (a : Step) (hn : n ≤ l.length) :
    (insertAt l n a).length = l.length + 1 := by
  induction l generalizing n with
  | nil =>
      cases n with
      | zero => rfl
      | succ k => simp at hn
  | cons x xs ih =>
      cases n with
      | zero => rfl
      | succ k =>
          simp only [insertAt, List.length_cons]
          rw [ih k (by simpa using hn)]

mutual
theorem Term.findNth_pred (t : Term) (pred : Term → Bool) (n : Nat) (s : Term)
    (h : t.findNth pred n = some s) : pred s = true := by
  match t with
  | .Variable v =>
      unfold Term.findNth at h
      split at h
      · rename_i hc
        cases h
        exact (Bool.and_eq_true _ _ ▸ hc).1
      · exact absurd h (by simp)
  | .Application f args =>
      unfold Term.findNth at h
      split at h
      · split at h
        · cases h; assumption
        · exact findNthList_pred args pred _ s h
      · exact findNthList_pred args pred n s h

theorem findNthList_pred (ts : List Term) (pred : Term → Bool) (n : Nat) (s : Term)
    (h : findNthList ts pred n = some s) : pred s = true := by
  match ts with
  | [] => exact absurd h (by simp [findNthList])
  | t :: ts' =>
      simp only [findNthList] at h
      split at h
      · exact Term.findNth_pred t pred n s h
      · exact findNthList_pred ts' pred _ s h
end

mutual
theorem Term.findNth_wellTyped (t : Term) (pred : Term → Bool) (n : Nat) (s : Term)
    (hwt : t.wellTypedB = true) (h : t.findNth pred n = some s) :
    s.wellTypedB = true := by
  match t with
  | .Variable v =>
      unfold Term.findNth at h
      split at h
      · cases h; exact hwt
      · exact absurd h (by simp)
  | .Application f args =>
      have hargs : allWellTyped args = true := by
        have := hwt
        unfold Term.wellTypedB at this
        exact (Bool.and_eq_true _ _ ▸ this).2
      unfold Term.findNth at h
      split at h
      · split at h
        · cases h; exact hwt
        · exact findNthList_wellTyped args pred _ s hargs h
      · exact findNthList_wellTyped args pred n s hargs h

theorem findNthList_wellTyped (ts : List Term) (pred : Term → Bool) (n : Nat)
    (s : Term) (hwt : allWellTyped ts = true)
    (h : findNthList ts pred n = some s) : s.wellTypedB = true := by
  match ts with
  | [] => exact absurd h (by simp [findNthList])
  | t :: ts' =>
      have hts : t.wellTypedB = true ∧ allWellTyped ts' = true := by
        have := hwt
        unfold allWellTyped at this
        exact Bool.and_eq_true _ _ ▸ this
      simp only [findNthList] at h
      split at h
      · exact Term.findNth_wellTyped t pred n s hts.1 h
      · exact findNthList_wellTyped ts' pred _ s hts.2 h
end

mutual
theorem Term.replaceNth_wt (t : Term) (pred : Term → Bool) (n : Nat) (r : Term)
    (hwt : t.wellTypedB = true) (hr : r.wellTypedB = true)
    (hpred : ∀ s, pred s = true → s.getTypeShape = r.getTypeShape) :
    (t.replaceNth pred n r).wellTypedB = true ∧
      (t.replaceNth pred n r).getTypeShape = t.getTypeShape := by
  match t with
  | .Variable v =>
      unfold Term.replaceNth
      split
      · rename_i hc
        have hp := (Bool.and_eq_true _ _ ▸ hc).1
        exact ⟨hr, (hpred _ hp).symm⟩
      · exact ⟨rfl, rfl⟩
  | .Application f args =>
      have hargs := hwt
      unfold Term.wellTypedB at hargs
      obtain ⟨htm, hall⟩ := Bool.and_eq_true _ _ ▸ hargs
      unfold Term.replaceNth
      split
      · rename_i hc
        split
        · exact ⟨hr, (hpred _ hc).symm⟩
        · have hl := replaceNthList_wt args f.shape.argumentTypes pred (n - 1) r
            htm hall hr hpred
          constructor
          · unfold Term.wellTypedB
            rw [hl.1, hl.2]
            rfl
          · rfl
      · have hl := replaceNthList_wt args f.shape.argumentTypes pred n r
          htm hall hr hpred
        constructor
        · unfold Term.wellTypedB
          rw [hl.1, hl.2]
          rfl
        · rfl

theorem replaceNthList_wt (ts : List Term) (tys : List TypeShape)
    (pred : Term → Bool) (n : Nat) (r : Term)
    (htm : typesMatch ts tys = true) (hall : allWellTyped ts = true)
    (hr : r.wellTypedB = true)
    (hpred : ∀ s, pred s = true → s.getTypeShape = r.getTypeShape) :
    typesMatch (replaceNthList ts pred n r) tys = true ∧
      allWellTyped (replaceNthList ts pred n r) = true := by
  match ts, tys with
  | [], tys => exact ⟨htm, hall⟩
  | t :: ts', [] => exact absurd htm (by simp [typesMatch])
  | t :: ts', ty :: tys' =>
      have htm' : (t.getTypeShape == ty) = true ∧ typesMatch ts' tys' = true := by
        have := htm
        unfold typesMatch at this
        exact Bool.and_eq_true _ _ ▸ this
      have hall' : t.wellTypedB = true ∧ allWellTyped ts' = true := by
        have := hall
        unfold allWellTyped at this
        exact Bool.and_eq_true _ _ ▸ this
      simp only [replaceNthList]
      split
      · have h1 := Term.replaceNth_wt t pred n r hall'.1 hr hpred
        constructor
        · unfold typesMatch
          rw [Bool.and_eq_true, h1.2]
          exact ⟨htm'.1, htm'.2⟩
        · unfold allWellTyped
          rw [Bool.and_eq_true]
          exact ⟨h1.1, hall'.2⟩
      · have h2 := replaceNthList_wt ts' tys' pred (n - t.countFiltered pred) r
          htm'.2 hall'.2 hr hpred
        constructor
        · unfold typesMatch
          rw [Bool.and_eq_true]
          exact ⟨htm'.1, h2.1⟩
        · unfold allWellTyped
          rw [Bool.and_eq_true]
          exact ⟨hall'.1, h2.2⟩
end

theorem traceFindNth_pred (steps : List Step) (pred : Term → Bool) (n : Nat)
    (s : Term) (h : traceFindNth steps pred n = some s) : pred s = true := by
  induction steps generalizing n with
  | nil => exact absurd h (by simp [traceFindNth])
  | cons st ss ih =>
      simp only [traceFindNth] at h
      split at h
      · exact findNthList_pred _ _ _ _ h
      · exact ih _ h

theorem traceFindNth_wellTyped (steps : List Step) (pred : Term → Bool) (n : Nat)
    (s : Term) (hwt : ∀ st ∈ steps, allWellTyped st.terms = true)
    (h : traceFindNth steps pred n = some s) : s.wellTypedB = true := by
  induction steps generalizing n with
  | nil => exact absurd h (by simp [traceFindNth])
  | cons st ss ih =>
      simp only [traceFindNth] at h
      split at h
      · exact findNthList_wellTyped _ _ _ _ (hwt st (by simp)) h
      · exact ih _ (fun st' hst' => hwt st' (by simp [hst'])) h

theorem traceReplaceNth_wt (steps : List Step) (pred : Term → Bool) (n : Nat)
    (r : Term) (hwt : ∀ st ∈ steps, allWellTyped st.terms = true)
    (hr : r.wellTypedB = true)
    (hpred : ∀ s, pred s = true → s.getTypeShape = r.getTypeShape) :
    ∀ st ∈ traceReplaceNth steps pred n r, allWellTyped st.terms = true := by
  induction steps generalizing n with
  | nil => intro st hst; exact absurd hst (by simp [traceReplaceNth])
  | cons st ss ih =>
      intro st' hst'
      simp only [traceReplaceNth] at hst'
      split at hst'
      · rcases List.mem_cons.mp hst' with h' | h'
        · subst h'
          cases hact : st.action with
          | Input a =>
              have hrec : a.recipe.wellTypedB = true := by
                have := hwt st (by simp)
                simp [Step.terms, hact, allWellTyped] at this
                exact this
              have := Term.replaceNth_wt a.recipe pred n r hrec hr hpred
              simp [Step.terms, hact, allWellTyped, this.1]
          | Output o => simp [Step.terms, hact, allWellTyped]
        · exact hwt st' (by simp [h'])
      · rcases List.mem_cons.mp hst' with h' | h'
        · exact hwt st' (by simp [h'])
        · exact ih _ (fun st'' hst'' => hwt st'' (by simp [hst''])) st' h'

theorem Trace.chooseTerm_pred (tr : Trace) (pred : Term → Bool) (rand : Nat)
    (s : Term) (h : tr.chooseTerm pred rand = some s) : pred s = true := by
  simp only [Trace.chooseTerm] at h
  split at h
  · exact absurd h (by simp)
  · exact traceFindNth_pred _ _ _ _ h

theorem Trace.wellTypedB_iff (tr : Trace) :
    tr.wellTypedB = true ↔ ∀ st ∈ tr.steps, allWellTyped st.terms = true := by
  unfold Trace.wellTypedB
  exact List.all_eq_true

theorem Trace.chooseTerm_wellTyped (tr : Trace) (pred : Term → Bool) (rand : Nat)
    (s : Term) (hwt : tr.wellTypedB = true) (h : tr.chooseTerm pred rand = some s) :
    s.wellTypedB = true := by
  simp only [Trace.chooseTerm] at h
  split at h
  · exact absurd h (by simp)
  · exact traceFindNth_wellTyped _ _ _ _ (tr.wellTypedB_iff.mp hwt) h

/-- Every `some` branch of `ReplaceMatchMutator::mutate` returns the trace it
was given: the edit happens on a `.cloned()` term that is dropped. -/
theorem replaceMatch_frame (sig : List FunctionDefinition) (tr : Trace)
    (r1 r2 : Nat) (res : MutationResult × Trace)
    (h : ReplaceMatchMutator.mutate sig tr r1 r2 = some res) : res.2 = tr := by
  simp only [ReplaceMatchMutator.mutate] at h
  split at h
  · exact absurd h (by simp)
  · split at h
    · cases h; rfl
    · split at h
      · cases h; rfl
      · cases h; rfl

/-- Every `some` branch of `RemoveAndLiftMutator::mutate` returns the trace it
was given: the edit happens on a `.cloned()` term that is dropped. -/
theorem removeAndLift_frame (tr : Trace) (r : Nat) (res : MutationResult × Trace)
    (h : RemoveAndLiftMutator.mutate tr r = some res) : res.2 = tr := by
  simp only [RemoveAndLiftMutator.mutate] at h
  split at h
  · cases h; rfl
  · split at h
    · cases h; rfl
    · split at h
      · exact absurd h (by simp)
      · cases h; rfl

/-! ### Claim theorems -/

/-- C4: for every signature, trace and random choices, whenever
`ReplaceMatchMutator::mutate` or `RemoveAndLiftMutator::mutate` returns (even
with result `Mutated`), the trace is completely unchanged, because each
mutator clones the selected subterm and applies its edit to the clone. -/
theorem claim_C4_clone_mutators_leave_trace_unchanged :
    (∀ (sig : List FunctionDefinition) (tr : Trace) (r1 r2 : Nat)
        (res : MutationResult × Trace),
        ReplaceMatchMutator.mutate sig tr r1 r2 = some res → res.2 = tr)
    ∧ (∀ (tr : Trace) (r : Nat) (res : MutationResult × Trace),
        RemoveAndLiftMutator.mutate tr r = some res → res.2 = tr) :=
  ⟨replaceMatch_frame, removeAndLift_frame⟩

/-- Witness for C4: a concrete `Mutated` run of Replace-Match that leaves the
trace unchanged. -/
theorem claim_C4_witness :
    ReplaceMatchMutator.mutate exampleSignature traceF 0 0 = some (.Mutated, traceF)
    ∧ ((MutationResult.Mutated, traceF) : MutationResult × Trace).2 = traceF :=
  ⟨rfl, claim_C4_clone_mutators_leave_trace_unchanged.1 exampleSignature traceF 0 0
    (.Mutated, traceF) rfl⟩

/-- C6 counterexample: the mutator suite registered by `trace_mutations` has
five members, not six, and Swap is not among them. -/
theorem claim_C6_counterexample :
    trace_mutations.length = 5 ∧ trace_mutations.length ≠ 6
    ∧ MutatorKind.Swap ∉ trace_mutations := by
  decide

/-- C6 amended: the suite consists of exactly the five transformations
Repeat, Skip, Replace-Reuse, Replace-Match and Remove-and-Lift; Swap is only
a todo comment in the source and is not part of the suite. -/
theorem claim_C6_amended_suite_is_five :
    trace_mutations =
      [.RepeatM, .SkipM, .ReplaceReuse, .ReplaceMatch, .RemoveAndLift]
    ∧ MutatorKind.Swap ∉ trace_mutations := by
  decide

/-- C9: the "random" function symbol is deterministic: `op_random` is the
fixed `Random` built from the 32-byte array `[1; 32]`, and `fn_random`
returns `Ok` of that same value, so every invocation yields the same
`Random`. -/
theorem claim_C9_random_symbol_is_fixed :
    op_random = ⟨List.replicate 32 1⟩
    ∧ fn_random = .ok op_random
    ∧ op_random.bytes.length = 32 :=
  ⟨rfl, rfl, by simp [op_random]⟩

/-- C10 counterexample: the 256-th generated agent name wraps around on one
byte and collides with the sentinel (the 0-th name), so not every generated
name is fresh. -/
theorem claim_C10_counterexample :
    agentNameAt 256 = AgentName.noneAgent ∧ agentNameAt 256 = agentNameAt 0 := by
  rw [agentNameAt_eq]
  exact ⟨rfl, rfl⟩

/-- C10 amended: freshness holds for the first 255 generated names: for all
`m < n ≤ 255`, the `n`-th generated name differs (by one-byte identity
equality) from the `m`-th (the sentinel is the 0-th); at `n = 256` the
one-byte successor wraps and the names repeat. -/
theorem claim_C10_amended_freshness_below_256 :
    ∀ m n : Nat, m < n → n ≤ 255 → agentNameAt n ≠ agentNameAt m := by
  intro m n hmn hn
  rw [agentNameAt_eq, agentNameAt_eq]
  intro h
  have h' : n % 256 = m % 256 := congrArg AgentName.val h
  rw [Nat.mod_eq_of_lt (by omega), Nat.mod_eq_of_lt (by omega)] at h'
  omega

/-- Witness for the amended C10 at `m = 0`, `n = 1`. -/
theorem claim_C10_witness :
    (0 : Nat) < 1 ∧ (1 : Nat) ≤ 255 ∧ agentNameAt 1 ≠ agentNameAt 0 :=
  ⟨by decide, by decide,
    claim_C10_amended_freshness_below_256 0 1 (by decide) (by decide)⟩

/-- C7: applied to a trace with an empty steps list, Repeat and Skip return
`Skipped` and do not modify the trace; applied to a trace in which no subterm
satisfies the mutator's filter (for Replace-Reuse: the trace holds no
subterm at all, for Replace-Match: no Application matches the sampled shape,
for Remove-and-Lift: no Application passes its filter), those mutators
return `Skipped`. -/
theorem claim_C7_skip_safety :
    (∀ (tr : Trace) (r1 r2 : Nat), tr.steps = [] →
        RepeatMutator.mutate tr r1 r2 = (.Skipped, tr))
    ∧ (∀ (tr : Trace) (r : Nat), tr.steps = [] →
        SkipMutator.mutate tr r = (.Skipped, tr))
    ∧ (∀ (tr : Trace) (r1 r2 : Nat), tr.termCount (fun _ => true) = 0 →
        ReplaceReuseMutator.mutate tr r1 r2 = (.Skipped, tr))
    ∧ (∀ (sig : List FunctionDefinition) (tr : Trace) (r1 r2 : Nat)
          (shape : DynamicFunctionShape) (dfn : DynamicFunction),
        sig.get? (r1 % sig.length) = some (shape, dfn) →
        tr.termCount (replaceMatchFilter shape) = 0 →
        ReplaceMatchMutator.mutate sig tr r1 r2 = some (.Skipped, tr))
    ∧ (∀ (tr : Trace) (r : Nat), tr.termCount removeAndLiftFilter = 0 →
        RemoveAndLiftMutator.mutate tr r = some (.Skipped, tr)) := by
  refine ⟨?_, ?_, ?_, ?_, ?_⟩
  · intro tr r1 r2 h
    simp [RepeatMutator.mutate, h]
  · intro tr r h
    simp [SkipMutator.mutate, h]
  · intro tr r1 r2 h
    simp [ReplaceReuseMutator.mutate, Trace.chooseTerm, h]
  · intro sig tr r1 r2 shape dfn hget hcount
    rw [List.get?_eq_getElem?] at hget
    simp [ReplaceMatchMutator.mutate, List.get?_eq_getElem?, hget,
      Trace.chooseTerm, hcount]
  · intro tr r hcount
    simp [RemoveAndLiftMutator.mutate, Trace.chooseTerm, hcount]

/-- Witness for C7: concrete skip outcomes for all five mutators. -/
theorem claim_C7_witness :
    RepeatMutator.mutate ⟨[]⟩ 0 0 = (.Skipped, (⟨[]⟩ : Trace))
    ∧ SkipMutator.mutate ⟨[]⟩ 0 = (.Skipped, (⟨[]⟩ : Trace))
    ∧ ReplaceReuseMutator.mutate ⟨[]⟩ 0 0 = (.Skipped, (⟨[]⟩ : Trace))
    ∧ ReplaceMatchMutator.mutate [(shapeU, dynU)] traceF 0 0 = some (.Skipped, traceF)
    ∧ RemoveAndLiftMutator.mutate traceF 0 = some (.Skipped, traceF) :=
  ⟨claim_C7_skip_safety.1 ⟨[]⟩ 0 0 rfl,
   claim_C7_skip_safety.2.1 ⟨[]⟩ 0 rfl,
   claim_C7_skip_safety.2.2.1 ⟨[]⟩ 0 0 rfl,
   claim_C7_skip_safety.2.2.2.1 [(shapeU, dynU)] traceF 0 0 shapeU dynU rfl rfl,
   claim_C7_skip_safety.2.2.2.2 traceF 0 rfl⟩

/-- C8: Skip returns `Mutated` iff the trace is non-empty, and then removes
exactly one step; on the empty trace it returns `Skipped` and leaves the
trace unchanged.  Iterating Skip on a concrete 5-step trace empties it in
exactly 5 applications, after which it is skipped forever. -/
theorem claim_C8_skip_decrements_until_empty :
    (∀ (tr : Trace) (r : Nat),
        ((SkipMutator.mutate tr r).1 = .Mutated ↔ tr.steps ≠ [])
        ∧ (tr.steps ≠ [] →
            (SkipMutator.mutate tr r).2.steps.length = tr.steps.length - 1)
        ∧ (tr.steps = [] → SkipMutator.mutate tr r = (.Skipped, tr)))
    ∧ (fun t : Trace => (SkipMutator.mutate t 0).2)^[5] traceFive = ⟨[]⟩
    ∧ SkipMutator.mutate ⟨[]⟩ 0 = (.Skipped, (⟨[]⟩ : Trace)) := by
  refine ⟨?_, rfl, rfl⟩
  intro tr r
  by_cases h : tr.steps = []
  · refine ⟨by simp [SkipMutator.mutate, h], fun hne => absurd h hne, fun _ => by
      simp [SkipMutator.mutate, h]⟩
  · have hlen : tr.steps.length ≠ 0 := by
      simpa [List.length_eq_zero] using h
    refine ⟨by simp [SkipMutator.mutate, hlen, h], fun _ => ?_, fun he => absurd he h⟩
    have hidx : randBetween 0 (tr.steps.length - 1) r < tr.steps.length := by
      have hmod := Nat.mod_lt r (show 0 < tr.steps.length - 1 - 0 + 1 by omega)
      simp only [randBetween]
      omega
    simp only [SkipMutator.mutate, if_neg hlen]
    exact List.length_eraseIdx_of_lt hidx

/-- Witness for C8 at a concrete non-empty trace. -/
theorem claim_C8_witness :
    traceFive.steps ≠ []
    ∧ (SkipMutator.mutate traceFive 3).2.steps.length = traceFive.steps.length - 1 :=
  ⟨by simp [traceFive],
   (claim_C8_skip_decrements_until_empty.1 traceFive 3).2.1 (by simp [traceFive])⟩

/-- On the concrete two-step trace, whatever the random choices, the third
slot of the steps list after Repeat is the original second step: the clone is
always inserted at index 0 or 1, never appended at index 2. -/
theorem repeat_traceTwo_keeps_third (r1 r2 : Nat) :
    ((RepeatMutator.mutate traceTwo r1 r2).2.steps.get? 2) = some stepOut := by
  have hr : randBetween 0 1 r2 = r2 % 2 := by
    simp [randBetween]
  rcases Nat.mod_two_eq_zero_or_one r2 with h | h <;>
    simp [RepeatMutator.mutate, traceTwo, hr, h, insertAt]

/-- C5 counterexample: the clone of the first step of a concrete two-step
trace is never inserted at the end (index `len = 2`): the outcome the claim
permits, `[stepAppF, stepOut, stepAppF]`, is unreachable for every
random-source state, because `insert_index` is sampled from `[0, len-1]`. -/
theorem claim_C5_counterexample :
    ¬ ∃ r1 r2 : Nat,
      (RepeatMutator.mutate traceTwo r1 r2).2.steps =
        [stepAppF, stepOut, stepAppF] := by
  rintro ⟨r1, r2, h⟩
  have h3 := repeat_traceTwo_keeps_third r1 r2
  rw [h] at h3
  simp [stepOut, stepAppF] at h3

/-- C5 amended: for every non-empty trace of length `len`, Repeat picks the
step at a uniformly distributed index in `[0, len-1]` and inserts its clone
at a uniformly distributed index in `[0, len-1]` (every such index is
reachable); insertion at the end index `len` is not a possible outcome.  The
step count grows by exactly one. -/
theorem claim_C5_amended_repeat_range :
    ∀ (tr : Trace) (r1 r2 : Nat) (h : tr.steps ≠ []),
      RepeatMutator.mutate tr r1 r2 =
        (.Mutated,
          ⟨insertAt tr.steps (r2 % tr.steps.length)
            (tr.steps.get ⟨r1 % tr.steps.length,
              Nat.mod_lt _ (List.length_pos.mpr h)⟩)⟩)
      ∧ r2 % tr.steps.length < tr.steps.length
      ∧ (∀ i, i < tr.steps.length → ∃ r : Nat, r % tr.steps.length = i)
      ∧ (RepeatMutator.mutate tr r1 r2).2.steps.length = tr.steps.length + 1 := by
  intro tr r1 r2 h
  have hlen : tr.steps.length ≠ 0 := by simpa [List.length_eq_zero] using h
  have hpos : 0 < tr.steps.length := Nat.pos_of_ne_zero hlen
  have hr : randBetween 0 (tr.steps.length - 1) r2 = r2 % tr.steps.length := by
    simp only [randBetween, Nat.sub_zero, Nat.zero_add]
    rw [Nat.sub_add_cancel hpos]
  have hmod : r2 % tr.steps.length < tr.steps.length := Nat.mod_lt _ hpos
  have hmain : RepeatMutator.mutate tr r1 r2 =
      (.Mutated,
        ⟨insertAt tr.steps (r2 % tr.steps.length)
          (tr.steps.get ⟨r1 % tr.steps.length,
            Nat.mod_lt _ (List.length_pos.mpr h)⟩)⟩) := by
    simp only [RepeatMutator.mutate, dif_neg hlen, hr]
  refine ⟨hmain, hmod, fun i hi => ⟨i, Nat.mod_eq_of_lt hi⟩, ?_⟩
  rw [hmain]
  exact length_insertAt _ _ _ (Nat.le_of_lt hmod)

/-- Witness for the amended C5 at the concrete two-step trace. -/
theorem claim_C5_witness :
    traceTwo.steps ≠ []
    ∧ (RepeatMutator.mutate traceTwo 0 1).2.steps.length =
        traceTwo.steps.length + 1 :=
  ⟨by simp [traceTwo],
   (claim_C5_amended_repeat_range traceTwo 0 1 (by simp [traceTwo])).2.2.2⟩

/-- C2 counterexample: sampling index 1 of the two-symbol signature selects
`shapeG`, and the mutator reports `Mutated` on `traceF`, whose only
Application carries `shapeF` — yet the returned trace still carries
`shapeF`, so no swap happened in the trace; and sampling index 0 selects
exactly the Application's own function, so `f' != A.function` is not
guaranteed either. -/
theorem claim_C2_counterexample :
    ReplaceMatchMutator.mutate exampleSignature traceF 1 0 = some (.Mutated, traceF)
    ∧ traceF = ⟨[⟨⟨1⟩, .Input ⟨.Application ⟨shapeF, dynF⟩ []⟩⟩]⟩
    ∧ shapeF ≠ shapeG
    ∧ exampleSignature.get? (1 % exampleSignature.length) = some (shapeG, dynG)
    ∧ exampleSignature.get? (0 % exampleSignature.length) = some (shapeF, dynF)
    ∧ ReplaceMatchMutator.mutate exampleSignature traceF 0 0 =
        some (.Mutated, traceF) :=
  ⟨rfl, rfl, by decide, rfl, rfl, rfl⟩

/-- C2 amended: when Replace-Match returns `Mutated`, the sampled function
`f'` matches the selected Application's return type and argument types —
but may coincide with its function — and the swap is applied to a clone of
the Application (children retained in the clone) while the trace itself is
returned unchanged. -/
theorem claim_C2_amended_replace_match :
    ∀ (sig : List FunctionDefinition) (tr : Trace) (r1 r2 : Nat)
      (res : MutationResult × Trace),
      ReplaceMatchMutator.mutate sig tr r1 r2 = some res →
      res.1 = .Mutated →
      res.2 = tr
      ∧ ∃ (requestedShape : DynamicFunctionShape)
          (requestedDynamicFn : DynamicFunction) (func : Fn) (args : List Term),
          sig.get? (r1 % sig.length) = some (requestedShape, requestedDynamicFn)
          ∧ tr.chooseTerm (replaceMatchFilter requestedShape) r2 =
              some (.Application func args)
          ∧ func.shape.returnType = requestedShape.returnType
          ∧ func.shape.argumentTypes = requestedShape.argumentTypes := by
  intro sig tr r1 r2 res hmut hres
  refine ⟨replaceMatch_frame sig tr r1 r2 res hmut, ?_⟩
  simp only [ReplaceMatchMutator.mutate] at hmut
  split at hmut
  · exact absurd hmut (by simp)
  · rename_i pair requestedShape requestedDynamicFn hget
    split at hmut
    · cases hmut
      exact absurd hres (by simp)
    · rename_i toMutate hchoose
      split at hmut
      · cases hmut
        exact absurd hres (by simp)
      · rename_i func args
        cases hmut
        have hp := Trace.chooseTerm_pred tr _ r2 _ hchoose
        simp only [replaceMatchFilter, Bool.and_eq_true, beq_iff_eq] at hp
        exact ⟨requestedShape, requestedDynamicFn, func, args, hget, hchoose,
          hp.1, hp.2⟩

/-- Witness for the amended C2 at a concrete signature and trace. -/
theorem claim_C2_witness :
    ((MutationResult.Mutated, traceF) : MutationResult × Trace).2 = traceF
    ∧ ∃ (requestedShape : DynamicFunctionShape)
        (requestedDynamicFn : DynamicFunction) (func : Fn) (args : List Term),
        exampleSignature.get? (0 % exampleSignature.length) =
            some (requestedShape, requestedDynamicFn)
        ∧ traceF.chooseTerm (replaceMatchFilter requestedShape) 0 =
            some (.Application func args)
        ∧ func.shape.returnType = requestedShape.returnType
        ∧ func.shape.argumentTypes = requestedShape.argumentTypes :=
  claim_C2_amended_replace_match exampleSignature traceF 0 0 (.Mutated, traceF)
    rfl rfl

/-- C3 counterexample: on the concrete trace `fn_u(fn_f())` Remove-and-Lift
reports `Mutated`, yet the returned trace is the input trace itself — the
lift happened on a discarded clone, so the resulting term does not have
strictly fewer nodes (the node count stays 2), and no replacement inside a
parent `P` took place. -/
theorem claim_C3_counterexample :
    RemoveAndLiftMutator.mutate traceLift 0 = some (.Mutated, traceLift)
    ∧ traceLift.termCount (fun _ => true) = 2 :=
  ⟨rfl, rfl⟩

/-- C3 amended: when Remove-and-Lift returns `Mutated`, it has found an
Application whose shape has exactly one argument type, equal to its return
type, and a non-empty child list; the replacement of that Application by its
sole child is applied to a discarded clone, and the trace itself is returned
unchanged. -/
theorem claim_C3_amended_remove_and_lift :
    ∀ (tr : Trace) (r : Nat) (res : MutationResult × Trace),
      RemoveAndLiftMutator.mutate tr r = some res →
      res.1 = .Mutated →
      res.2 = tr
      ∧ ∃ (func : Fn) (args : List Term),
          tr.chooseTerm removeAndLiftFilter r = some (.Application func args)
          ∧ func.shape.argumentTypes.length = 1
          ∧ func.shape.argumentTypes.head? = some func.shape.returnType
          ∧ args ≠ [] := by
  intro tr r res hmut hres
  refine ⟨removeAndLift_frame tr r res hmut, ?_⟩
  simp only [RemoveAndLiftMutator.mutate] at hmut
  split at hmut
  · cases hmut
    exact absurd hres (by simp)
  · rename_i toMutate hchoose
    split at hmut
    · cases hmut
      exact absurd hres (by simp)
    · rename_i func args
      split at hmut
      · exact absurd hmut (by simp)
      · rename_i firstSub hhead
        cases hmut
        have hp := Trace.chooseTerm_pred tr _ r _ hchoose
        simp only [removeAndLiftFilter, Bool.and_eq_true, beq_iff_eq] at hp
        refine ⟨func, args, hchoose, hp.1, hp.2, ?_⟩
        intro hnil
        rw [hnil] at hhead
        exact absurd hhead (by simp)

/-- Witness for the amended C3 at the concrete trace `fn_u(fn_f())`. -/
theorem claim_C3_witness :
    ((MutationResult.Mutated, traceLift) : MutationResult × Trace).2 = traceLift
    ∧ ∃ (func : Fn) (args : List Term),
        traceLift.chooseTerm removeAndLiftFilter 0 = some (.Application func args)
        ∧ func.shape.argumentTypes.length = 1
        ∧ func.shape.argumentTypes.head? = some func.shape.returnType
        ∧ args ≠ [] :=
  claim_C3_amended_remove_and_lift traceLift 0 (.Mutated, traceLift) rfl rfl

/-- C1: for every mutator in the suite registered by `trace_mutations` and
every well-typed trace, if the mutator returns `Mutated` then every
Application in the resulting trace satisfies the structural typing
invariant (children count equals the argument-type count of the function's
shape, and each child's output type equals the corresponding argument
type). -/
theorem claim_C1_type_preservation :
    ∀ m ∈ trace_mutations, ∀ (sig : List FunctionDefinition) (tr : Trace)
      (r1 r2 : Nat) (res : MutationResult × Trace),
      tr.wellTypedB = true →
      applyMutator m sig tr r1 r2 = some res →
      res.1 = .Mutated →
      res.2.wellTypedB = true := by
  intro m hm sig tr r1 r2 res hwt happ hres
  fin_cases hm
  · -- Repeat
    simp only [applyMutator, Option.some.injEq] at happ
    subst happ
    by_cases h : tr.steps.length = 0
    · simpa [RepeatMutator.mutate, h] using hwt
    · simp only [RepeatMutator.mutate, dif_neg h]
      refine (Trace.wellTypedB_iff _).mpr ?_
      intro st hst
      rcases mem_insertAt hst with rfl | hmem
      · exact (tr.wellTypedB_iff.mp hwt) _ (List.get_mem _ _ _)
      · exact (tr.wellTypedB_iff.mp hwt) _ hmem
  · -- Skip
    simp only [applyMutator, Option.some.injEq] at happ
    subst happ
    by_cases h : tr.steps.length = 0
    · simpa [SkipMutator.mutate, h] using hwt
    · simp only [SkipMutator.mutate, if_neg h]
      refine (Trace.wellTypedB_iff _).mpr ?_
      intro st hst
      exact (tr.wellTypedB_iff.mp hwt) st (List.eraseIdx_subset _ _ hst)
  · -- Replace-Reuse
    simp only [applyMutator, Option.some.injEq] at happ
    subst happ
    rcases hc : tr.chooseTerm (fun _ => true) r1 with _ | replacement
    · simpa [ReplaceReuseMutator.mutate, hc] using hwt
    · by_cases h0 :
        tr.termCount (fun t => t.getTypeShape == replacement.getTypeShape) = 0
      · simpa [ReplaceReuseMutator.mutate, hc, h0] using hwt
      · simp only [ReplaceReuseMutator.mutate, hc, if_neg h0]
        refine (Trace.wellTypedB_iff _).mpr ?_
        exact traceReplaceNth_wt _ _ _ _ (tr.wellTypedB_iff.mp hwt)
          (Trace.chooseTerm_wellTyped tr _ r1 replacement hwt hc)
          (fun s hs => eq_of_beq hs)
  · -- Replace-Match: the trace is returned unchanged
    simp only [applyMutator] at happ
    rw [replaceMatch_frame sig tr r1 r2 res happ]
    exact hwt
  · -- Remove-and-Lift: the trace is returned unchanged
    simp only [applyMutator] at happ
    rw [removeAndLift_frame tr r1 res happ]
    exact hwt

/-- Witness for C1: Skip on a concrete well-typed one-step trace. -/
theorem claim_C1_witness :
    MutatorKind.SkipM ∈ trace_mutations
    ∧ traceF.wellTypedB = true
    ∧ applyMutator .SkipM [] traceF 0 0 = some (.Mutated, ⟨[]⟩)
    ∧ (⟨[]⟩ : Trace).wellTypedB = true :=
  ⟨by decide, rfl, rfl,
   claim_C1_type_preservation .SkipM (by decide) [] traceF 0 0 (.Mutated, ⟨[]⟩)
     rfl rfl rfl⟩

end Tlspuffin
